import Mathlib

/-!
Verification of the analysis engine of STSS.py (Self-Targeting Spacer Search
tool) against its natural-language specification.  The Python source is
shallowly embedded below: strings are `List Char`, Python integers are `Int`
(or `Nat` where the source value is provably non-negative), Python `int()`
truncation and slice semantics are modelled explicitly, and code paths that
raise an uncaught exception are modelled with `Option`.
-/

namespace STSS

/-! ## Python primitives -/

/-- Python slice index normalisation: for a sequence of length `n`, a slice
endpoint `i` is clipped to `[0, n]`, with negative values counted from the
end (`i + n`, clipped below at 0). -/
def pyIndex (n : Nat) (i : Int) : Nat :=
  if i < 0 then (max (i + n) 0).toNat else min i.toNat n

/-- Python slice `s[a:b]` (step 1). -/
def pySlice {α : Type} (s : List α) (a b : Int) : List α :=
  (s.take (pyIndex s.length b)).drop (pyIndex s.length a)

/-- Python `s.split(sep)` for a single-character separator: split on every
occurrence, keeping empty pieces (`"".split(t)` is `[""]`). -/
def pySplit (sep : Char) : List Char → List (List Char)
  | [] => [[]]
  | c :: rest =>
    let r := pySplit sep rest
    if c = sep then [] :: r
    else (c :: r.headD []) :: r.tail

/-- Decimal digit value, `none` for a non-digit. -/
def digitVal (c : Char) : Option Nat :=
  if '0' ≤ c ∧ c ≤ '9' then some (c.toNat - '0'.toNat) else none

/-- Digit-string accumulator for `pyIntParse`. -/
def digitsToNat : List Char → Nat → Option Nat
  | [], acc => some acc
  | c :: rest, acc => do
    let d ← digitVal c
    digitsToNat rest (acc * 10 + d)

/-- Python `int(string)` on a plain decimal literal with an optional sign;
`none` models the `ValueError` Python raises on anything else. -/
def pyIntParse (s : List Char) : Option Int :=
  match s with
  | [] => none
  | '-' :: rest =>
    if rest = [] then none else (digitsToNat rest 0).map (fun n => -(n : Int))
  | '+' :: rest =>
    if rest = [] then none else (digitsToNat rest 0).map (fun n => (n : Int))
  | _ => (digitsToNat s 0).map (fun n => (n : Int))

/-! ## Python float primitives

The plausibility check of `spacer_check` computes its average and limits in
IEEE-754 binary64 arithmetic (`sum(...)/len(...)`, `percent_reject / 100`,
`1 ± ...`, `average * ...`).  A binary64 value is modelled exactly as
`m · 2^e` with a correctly-rounded 53-bit significand and an unbounded
exponent (faithful to the double format away from overflow and subnormal
underflow, which the values of this code path never reach: CPython's
`int/int` true division, `int`→`float` conversion, and each float
operation deliver the correctly rounded exact result, which is what
`roundFrac`/`roundScaled` compute). -/

/-- A binary64 value `m · 2^e` (sign carried by `m`). -/
structure F64 where
  m : Int
  e : Int
  deriving DecidableEq, Repr

/-- Lower bound `2^52` of a normalised 53-bit significand. -/
def TWO52 : Nat := 2 ^ 52

/-- Upper bound `2^53` of a normalised 53-bit significand. -/
def TWO53 : Nat := 2 ^ 53

/-- Double the numerator (stepping the exponent down) until `n/d ≥ 2^52`;
the fuel bounds the iteration count. -/
def norm_up : Nat → Nat → Nat → Int → Nat × Int
  | 0, n, _, e => (n, e)
  | fuel + 1, n, d, e =>
    if n < TWO52 * d then norm_up fuel (2 * n) d (e - 1) else (n, e)

/-- Double the denominator (stepping the exponent up) until `n/d < 2^53`. -/
def norm_down : Nat → Nat → Nat → Int → Nat × Nat × Int
  | 0, n, d, e => (n, d, e)
  | fuel + 1, n, d, e =>
    if TWO53 * d ≤ n then norm_down fuel n (2 * d) (e + 1) else (n, d, e)

/-- Round the ratio `n/d` to the nearest integer, ties to even. -/
def round_half_even (n d : Nat) : Nat :=
  let q := n / d
  let r := n % d
  if 2 * r < d then q
  else if d < 2 * r then q + 1
  else if q % 2 = 0 then q else q + 1

/-- The correctly rounded binary64 value of the exact ratio `num/den`
(round to nearest, ties to even, 53-bit significand).  This is the result
of CPython's `int/int` true division, and with `den = 1` the `int`→`float`
conversion.  `den = 0` (a `ZeroDivisionError` site in Python) returns a
junk zero and is excluded by the callers' guards. -/
def roundFrac (num den : Int) : F64 :=
  let a := num.natAbs
  let b := den.natAbs
  if a = 0 ∨ b = 0 then ⟨0, 0⟩
  else
    let s : Int := if num * den < 0 then -1 else 1
    let fuel := a + b + 64
    let (n1, e1) := norm_up fuel a b 0
    let (n2, d2, e2) := norm_down fuel n1 b e1
    let m := round_half_even n2 d2
    if m = TWO53 then ⟨s * (TWO52 : Int), e2 + 1⟩ else ⟨s * (m : Int), e2⟩

/-- Round an exact integer value and scale by `2^shift` (scaling by a power
of two is exact, so rounding first is the correctly rounded result). -/
def roundScaled (n : Int) (shift : Int) : F64 :=
  let f := roundFrac n 1
  { m := f.m, e := f.e + shift }

/-- Python `int()` applied to a float: truncation toward zero. -/
def f64_trunc (x : F64) : Int :=
  if 0 ≤ x.e then x.m * (2 : Int) ^ x.e.toNat
  else x.m.tdiv ((2 : Int) ^ (-x.e).toNat)

/-- Python `int * float`: the integer is converted (correctly rounded) to
a double, then the product is rounded. -/
def f64_mul_int (k : Int) (x : F64) : F64 :=
  let kf := roundFrac k 1
  roundScaled (kf.m * x.m) (kf.e + x.e)

/-- Python `1 - x` on a float: the exact difference, rounded. -/
def f64_one_minus (x : F64) : F64 :=
  if 0 ≤ x.e then roundScaled (1 - x.m * (2 : Int) ^ x.e.toNat) 0
  else roundScaled ((2 : Int) ^ (-x.e).toNat - x.m) x.e

/-- Python `1 + x` on a float: the exact sum, rounded. -/
def f64_one_plus (x : F64) : F64 :=
  if 0 ≤ x.e then roundScaled (1 + x.m * (2 : Int) ^ x.e.toNat) 0
  else roundScaled ((2 : Int) ^ (-x.e).toNat + x.m) x.e

/-! ## `flip_mismatch_notation` (STSS.py lines 2136-2153)

The source reverses the string and maps the lowercase substitution letters
`a↔t`, `c↔g`, leaving every other character (including `.` and uppercase
insertion letters) unchanged. -/

/-- One character of the `flip_mismatch_notation` loop body. -/
def flip_base (c : Char) : Char :=
  if c = 'a' then 't'
  else if c = 't' then 'a'
  else if c = 'c' then 'g'
  else if c = 'g' then 'c'
  else c

/-- Embeds `flip_mismatch_notation(sequence)`: reverse, then complement-swap the
lowercase mutation letters. -/
def flip_mismatch_notation (sequence : List Char) : List Char :=
  (sequence.reverse).map flip_base

/-! ## Reverse complement (Bio.Seq.reverse_complement as used at
STSS.py lines 2024-2031, on uppercase DNA over {A,C,G,T,N}) -/

/-- DNA complement of one uppercase base; `N` (and any non-base character)
maps to itself, as Biopython does for `N`. -/
def complement_base (c : Char) : Char :=
  if c = 'A' then 'T'
  else if c = 'T' then 'A'
  else if c = 'C' then 'G'
  else if c = 'G' then 'C'
  else c

/-- Embeds `str(Seq(s).reverse_complement())` for an uppercase DNA string. -/
def reverse_complement (s : List Char) : List Char :=
  (s.reverse).map complement_base

/-! ## `correct_spacers_for_Ns` (STSS.py lines 2115-2134) -/

/-- The accumulation loop of `correct_spacers_for_Ns`: walk the corrected
Masking Correction Table entries in order; an entry `(p, w)` with
`0 ≤ p ≤ position` contributes `w`; the first entry with `p ≥ 0` beyond
`position` breaks the loop; entries with `p < 0` are skipped. -/
def Ns_adjust_loop (corrected : List (Int × Int)) (position : Int) : Int :=
  match corrected with
  | [] => 0
  | (p, w) :: rest =>
    if position ≥ p ∧ p ≥ 0 then w + Ns_adjust_loop rest position
    else if p ≥ 0 then 0
    else Ns_adjust_loop rest position

/-- Embeds `correct_spacers_for_Ns(spacer_pos, Ns_removed, contig_start,
align_locus_correction)`: shift table entries by `contig_start`, sum the
bases-removed of the entries at or before the query position, and add that
offset to the position. -/
def correct_spacers_for_Ns (spacer_pos : Int) (Ns_removed : List (Int × Int))
    (contig_start : Int) (align_locus_correction : Bool) : Int :=
  let corrected := Ns_removed.map (fun Ns => (Ns.1 - contig_start, Ns.2))
  let position := if align_locus_correction then spacer_pos - contig_start else spacer_pos
  spacer_pos + Ns_adjust_loop corrected position

/-! ## `spacer_check` (STSS.py lines 259-274) -/

/-- The accepted-character string `"ATGCatgcnN"` of `spacer_check`. -/
def spacer_code : List Char := ['A', 'T', 'G', 'C', 'a', 't', 'g', 'c', 'n', 'N']

/-- Embeds `average_spacer_length = int(sum(spacer_lengths) / len(spacer_lengths))`:
the correctly rounded binary64 quotient, truncated toward zero. -/
def average_spacer_length (spacer_lengths : List Nat) : Int :=
  f64_trunc (roundFrac (spacer_lengths.sum : Int) (spacer_lengths.length : Int))

/-- Embeds `lower_limit = int(average_spacer_length * (1 - percent_reject / 100))`
(`percent_reject` is parsed with `int()` at the CLI), computed step by step
in binary64 exactly as the source evaluates it. -/
def spacer_lower_limit (average : Int) (percent_reject : Int) : Int :=
  f64_trunc (f64_mul_int average (f64_one_minus (roundFrac percent_reject 100)))

/-- Embeds `upper_limit = int(average_spacer_length * (1 + percent_reject / 100))`,
computed step by step in binary64 exactly as the source evaluates it. -/
def spacer_upper_limit (average : Int) (percent_reject : Int) : Int :=
  f64_trunc (f64_mul_int average (f64_one_plus (roundFrac percent_reject 100)))

/-- Embeds `spacer_check(sequences, percent_reject)`.  Returns `none` where the
Python raises (`ZeroDivisionError` on an empty sequence list).  The average
spacer length and both limits are computed in the binary64 float model and
truncated with `int()` exactly as in the source. -/
def spacer_check (sequences : List (List Char)) (percent_reject : Int) : Option Bool :=
  if sequences.any (fun sequence => sequence.any (fun base => ¬ base ∈ spacer_code)) then
    some false
  else if sequences.length = 0 then none
  else
    let spacer_lengths := sequences.map List.length
    let average := average_spacer_length spacer_lengths
    let lower_limit := spacer_lower_limit average percent_reject
    let upper_limit := spacer_upper_limit average percent_reject
    some (! spacer_lengths.any (fun l => (l : Int) < lower_limit ∨ (l : Int) > upper_limit))

/-! ## Termination on an empty result set (STSS.py lines 2354-2358)

`self_target_analysis` ends with: if the filtered summary list is empty,
print "No self-targeting spacers found. Exiting..." and call `sys.exit()`
— which raises `SystemExit(None)`, i.e. process exit status 0. -/

/-- Outcome of the tail of `self_target_analysis`: either the process exits
with a message and an exit status, or the summary list is returned. -/
inductive RunOutcome (α : Type) : Type
  | exited (status : Nat) (message : List Char) : RunOutcome α
  | returned (summary : List α) : RunOutcome α
  deriving DecidableEq

/-- The message printed before the exit call. -/
def no_hits_message : List Char :=
  "No self-targeting spacers found. Exiting...".toList

/-- The final empty-result check of `self_target_analysis`:
`sys.exit()` with no argument exits with status 0. -/
def self_target_exit {α : Type} (blast_results_filtered_summary : List α) :
    RunOutcome α :=
  if blast_results_filtered_summary.isEmpty then
    RunOutcome.exited 0 no_hits_message
  else
    RunOutcome.returned blast_results_filtered_summary

/-! ## `Type_check` (STSS.py lines 1285-1315)

`Counter(types_list).most_common()` lists the distinct subtype tokens with
their counts, sorted by count descending; Python's sort is stable and a
`Counter` iterates keys in first-occurrence order, so ties keep
first-occurrence order.  The loop then joins the tied leaders.  Note the
source's tie fix-ups `Type.replace(",", " or")` (line 1306) and the slice
expression on line 1309 discard their results: both statements have no
effect, and only `Type += "?"` runs. -/

/-- Distinct elements of a list in order of first occurrence
(the key order of a Python `dict`/`Counter`). -/
def first_occurrences (l : List String) : List String :=
  match l with
  | [] => []
  | x :: rest => x :: (first_occurrences rest).filter (fun y => y ≠ x)

/-- Stable insertion for a descending sort by count: `x` is placed after
every entry with a strictly larger count and before the first entry with a
count `≤` its own (so earlier keys precede tied later keys). -/
def insert_by_count_desc (x : String × Nat) :
    List (String × Nat) → List (String × Nat)
  | [] => [x]
  | y :: rest => if y.2 > x.2 then y :: insert_by_count_desc x rest else x :: y :: rest

/-- Embeds `Counter(types_list).most_common()`: (token, count) pairs sorted by
count descending, ties in first-occurrence order. -/
def most_common (types_list : List String) : List (String × Nat) :=
  ((first_occurrences types_list).map (fun k => (k, types_list.count k))).foldr
    insert_by_count_desc []

/-- Number of occurrences of `","` in the accumulated `Type` string
(`Type.count(",")` in the source). -/
def comma_count (s : String) : Nat :=
  s.toList.count ','

/-- The fix-up block guarded by `count < off_count or … last` in
`Type_check`: more than 3 tied candidates collapse to `"?"`; for 2 or 3
tied candidates only `Type += "?"` takes effect (the `replace` and slice
expressions in the source discard their results). -/
def type_check_finalize (ty : String) : String :=
  if comma_count ty > 2 then "?"
  else if comma_count ty = 1 then ty ++ "?"
  else if comma_count ty = 2 then ty ++ "?"
  else ty

/-- The `for most_common in data.most_common()` loop of `Type_check`,
carrying the accumulated `Type` string and `off_count`.  An element is the
last of the original list exactly when the remaining tail is empty
(`most_common()` keys are distinct). -/
def type_check_loop : List (String × Nat) → String → Nat → String
  | [], ty, _ => ty
  | (name, count) :: rest, ty, off_count =>
    let ty' :=
      if count ≥ off_count then
        if ty = "" then name
        else if comma_count ty = 1 then ty ++ ", or " ++ name
        else ty ++ ", " ++ name
      else ty
    let off_count' := if count ≥ off_count then count else off_count
    if count < off_count' ∨ rest = [] then type_check_finalize ty'
    else type_check_loop rest ty' off_count'

/-- Embeds `Type_check(types_list)`. -/
def Type_check (types_list : List String) : String :=
  let ty := type_check_loop (most_common types_list) "" 0
  if ty = "" then "?" else ty

/-! ## `get_loci` locus parsing (STSS.py lines 1010-1034)

For each line whose first six characters are `"CRISPR"` an array record
holding that header line is appended; then, for each header at index
`locus`, repeat/spacer rows are read from `lines[locus+3]` onward
(`lines[locus+2+spacer_counter]`, `spacer_counter` starting at 1).  A row's
spacer is tab-field 3; collection stops at the first row whose field 3 is
the bare `"\n"` left by the final repeat of the array.  The spacer's
absolute position is `int(field 0) + int(field 4.split(" ")[1][:-1])`.
A missing line, a missing field, or an unparsable integer raises in Python
(uncaught), modelled as `none`. -/

/-- Embeds `lines[…].split("\t")[3]`, the spacer column of a repeat/spacer row
(lines are `List Char`, as read by `readlines` with trailing newline). -/
def row_spacer_field (line : List Char) : Option (List Char) :=
  (pySplit '\t' line).get? 3

/-- The absolute spacer position of a row:
`int(row.split("\t")[0]) + int(row.split("\t")[4].split(" ")[1][:-1])`. -/
def row_spacer_pos (line : List Char) : Option Int := do
  let f0 ← (pySplit '\t' line).get? 0
  let f4 ← (pySplit '\t' line).get? 4
  let n0 ← pyIntParse f0
  let w ← (pySplit ' ' f4).get? 1
  let n4 ← pyIntParse w.dropLast
  pure (n0 + n4)

/-- The `while True` row-collection loop of `get_loci`: emit `(spacer,
position)` pairs until the first row whose spacer column is the bare
newline left after the final repeat's last tab. -/
def collect_spacer_rows : List (List Char) → Option (List (List Char × Int))
  | [] => none
  | line :: rest => do
    let curr_spacer ← row_spacer_field line
    if curr_spacer = ['\n'] then pure []
    else do
      let pos ← row_spacer_pos line
      let tail ← collect_spacer_rows rest
      pure ((curr_spacer, pos) :: tail)

/-- Embeds `line[:6] == "CRISPR"`: a locus header. -/
def is_crispr_header (line : List Char) : Bool :=
  line.take 6 = "CRISPR".toList

/-- Indexes of the locus header lines (`CRISPR_positions` in the source). -/
def header_positions (lines : List (List Char)) : List Nat :=
  (lines.enum.filter (fun p => is_crispr_header p.2)).map (fun p => p.1)

/-- One CRISPR array record of `spacer_data`: the header line it was
created from, and the collected `(spacer sequence, spacer position)` pairs. -/
structure PyArray where
  header : List Char
  spacers : List (List Char × Int)
  deriving DecidableEq, Repr

/-- Collection of all array records, one per header position, in order. -/
def loci_collect (lines : List (List Char)) : List Nat → Option (List PyArray)
  | [] => some []
  | locus :: rest => do
    let sps ← collect_spacer_rows (lines.drop (locus + 3))
    let others ← loci_collect lines rest
    pure ({ header := lines.getD locus [], spacers := sps } :: others)

/-- The per-genome CRISPR-array parse of `get_loci`: one `PyArray` record is
appended for every `"CRISPR"` header line (the append happens when the
header is scanned, before any rows are read), and each record's spacers are
collected from the rows starting three lines below its header. -/
def get_loci_arrays (lines : List (List Char)) : Option (List PyArray) :=
  loci_collect lines (header_positions lines)

/-! ## PAM/repeat collision guard (STSS.py lines 2054-2070)

The downstream flank is compared against `consensus_repeat[:9]` and the
upstream flank against `consensus_repeat[-9:]`; `errors_accum` (despite its
name) counts MATCHING positions and the spacer is rejected as soon as it
reaches `9 - errors_allowed = 8`.  Indexing past the end of the flank
(`IndexError`) breaks the letter loop.  In the source, `pos` is reset for
the second flank only if it is non-zero after the first; it is left at the
first loop's final value otherwise, which is embedded as-is. -/

/-- The source constant `errors_allowed = 1`. -/
def errors_allowed : Nat := 1

/-- The letter loop of the PAM guard over one `consensus_r`/flank pair:
returns (rejected, final `pos`, final `errors_accum`). -/
def pam_scan : List Char → List Char → Nat → Nat → Bool × Nat × Nat
  | [], _, pos, acc => (false, pos, acc)
  | letter :: rest, PAM_seq, pos, acc =>
    match PAM_seq.get? pos with
    | none => (false, pos, acc)
    | some p =>
      let acc' := if letter = p then acc + 1 else acc
      if acc' ≥ 9 - errors_allowed then (true, pos + 1, acc')
      else pam_scan rest PAM_seq (pos + 1) acc'

/-- Python `consensus_repeat[:9]`. -/
def first9 (s : List Char) : List Char := s.take 9

/-- Python `consensus_repeat[-9:]`. -/
def last9 (s : List Char) : List Char := s.drop (s.length - 9)

/-- The PAM/repeat collision guard: `true` means the candidate spacer is
rejected (the source returns a skip marker for this spacer; it never writes
the array-level `false_positive` entry of `loci_checked` on this path). -/
def PAM_repeat_guard (consensus_repeat PAM_seq_down PAM_seq_up : List Char) : Bool :=
  let r1 := pam_scan (first9 consensus_repeat) PAM_seq_down 0 0
  if r1.1 then true
  else if r1.2.1 = 0 then
    (pam_scan (first9 consensus_repeat) PAM_seq_up r1.2.1 r1.2.2).1
  else
    (pam_scan (last9 consensus_repeat) PAM_seq_up 0 0).1

/-- Number of positions at which two strings agree (over the overlap). -/
def match_count (consensus_r PAM_seq : List Char) : Nat :=
  (consensus_r.zip PAM_seq).countP (fun p => p.1 = p.2)

/-! ## Register-correction migration scan (STSS.py lines 1743-1791)

`indexes = range(0, len(consensus_spacer)-1)`; the statement
`reversed(indexes)` before the backward pass discards its result, so both
passes iterate the same index list from the front.  The dominance threshold
is computed from `overrep_percent * len(spacers)` with a round-then-bump
(`round` then `+1` when rounding went down).  Python's `round` is
half-to-even while Mathlib's `round` is half-up; the two differ only at
exact halves, where either branch of the bump yields the ceiling, so the
resulting `count_limit` is identical.

The position-specific counts (`spacers_pssm[i][base]`) come from an
external Clustal Omega alignment of the spacers; for spacers of equal
length over {A,C,G,T,N} and longer than 10 (the only ones the source feeds
to the aligner, under which the alignment is gap-free and columns coincide
with string positions) the count at column `i` is the number of spacers
with `base` at position `i`.  A letter absent from the PSSM raises
`KeyError`, which the source treats as count 0 (`pass`). -/

/-- Embeds `count_limit`: the dominance threshold for `N` spacers.  The source
computes `overrep_percent * N` as a float; it is represented here exactly
as the non-negative fraction `p / q` (`3N/4` or `N/1`), whose rounding
`round(p/q)` is `(2p + q) / (2q)` (floor).  Mathlib-style half-up rounding
and Python's half-to-even differ only at exact halves, where both branches
of the bump below produce the same ceiling value. -/
def count_limit (N : Nat) : Nat :=
  let p : Nat := if N > 4 then 3 * N else N
  let q : Nat := if N > 4 then 4 else 1
  let r : Nat := (2 * p + q) / (2 * q)
  if r * q < p then r + 1 else r

/-- Embeds `spacers_pssm[i][base]` for an equal-length, gap-free spacer set. -/
def pssm_count (spacers : List (List Char)) (i : Nat) (base : Char) : Nat :=
  spacers.countP (fun s => s.get? i = some base)

/-- Embeds `strong_homology` at column `i`: some base of `"ATGC"` reaches
`count_limit` over the `len(spacers)` members. -/
def strong_homology (spacers : List (List Char)) (i : Nat) : Bool :=
  ['A', 'T', 'G', 'C'].any (fun base =>
    pssm_count spacers i base ≥ count_limit spacers.length)

/-- The forward pass (`step_dir = 1`): `move_F_len` increments while the
current column is dominant, and the pass breaks at the first that is not. -/
def scan_forward (spacers : List (List Char)) : List Nat → Nat
  | [] => 0
  | i :: rest =>
    if strong_homology spacers i then 1 + scan_forward spacers rest else 0

/-- The backward pass (`step_dir = -1`): because `reversed(indexes)` is
discarded it walks the same index list; its counter jumps from 0 to 2 on
the first dominant column and then increments by 1. -/
def scan_backward (spacers : List (List Char)) : List Nat → Nat → Nat
  | [], acc => acc
  | i :: rest, acc =>
    if strong_homology spacers i then
      scan_backward spacers rest (if acc = 0 then acc + 1 + 1 else acc + 1)
    else acc

/-- Embeds `move_F_len` for a spacer set whose consensus has length `L`
(`indexes = range(0, L-1)`). -/
def move_F_len (spacers : List (List Char)) (L : Nat) : Nat :=
  scan_forward spacers (List.range (L - 1))

/-- Embeds `move_R_len` for a spacer set whose consensus has length `L`. -/
def move_R_len (spacers : List (List Char)) (L : Nat) : Nat :=
  scan_backward spacers (List.range (L - 1)) 0

/-- The accepted characters `'ACGTN'` of the alignment filter. -/
def valid_dna : List Char := ['A', 'C', 'G', 'T', 'N']

/-! ## Reflow of repeats and spacers (STSS.py lines 1776-1791) -/

/-- The spacer reflow: every spacer is replaced by
`spaceri[move_F_len : len(spaceri) - move_R_len - 1]`, unconditionally. -/
def corrected_spacers (spacers : List (List Char)) (mF mR : Nat) :
    List (List Char) :=
  spacers.map (fun spaceri =>
    pySlice spaceri (mF : Int) ((spaceri.length : Int) - mR - 1))

/-- One iteration of the repeat reflow loop (`repeats_temp`), indexed by
`i`; out-of-range list accesses (`spacers[0]` on an empty spacer list)
raise in Python and are modelled as `none`. -/
def corrected_repeat_at (repeats spacers : List (List Char)) (mF mR : Nat)
    (i : Nat) : Option (List Char) := do
  let repeat_i ← repeats.get? i
  if i = 0 then do
    let s0 ← spacers.get? 0
    pure (repeat_i ++ s0.take mF)
  else if i < spacers.length then do
    let sprev ← spacers.get? (i - 1)
    let si ← spacers.get? i
    pure (pySlice sprev ((sprev.length : Int) - mR) (sprev.length : Int) ++
      repeat_i ++ si.take mF)
  else do
    let sprev ← spacers.get? (i - 1)
    pure (pySlice sprev ((sprev.length : Int) - mR) (sprev.length : Int) ++ repeat_i)

/-- The repeat reflow: the forward-migrated prefix of each spacer moves to
the end of the preceding repeat and the backward-migrated suffix of each
spacer to the start of the following repeat. -/
def corrected_repeats (repeats spacers : List (List Char)) (mF mR : Nat) :
    Option (List (List Char)) :=
  (List.range repeats.length).mapM (corrected_repeat_at repeats spacers mF mR)

/-- The self-targeting spacer adjustment (STSS.py lines 1804-1811): applied
only when `move_F_len + abs(move_R_len) > 0` (`move_R_len` is a
non-negative counter, so `abs` is the identity). -/
def adjust_spacer_seq (spacer_seq : List Char) (mF mR : Nat) : List Char :=
  if mF + mR > 0 then
    pySlice spacer_seq (mF : Int) ((spacer_seq.length : Int) - mR - 1)
  else spacer_seq

/-! # Theorems -/

/-- C1: the claim states that a two-way subtype tie such as counts
{II-A: 3, II-B: 3, II-C: 1} yields exactly `"Type II-A, or II-B"` while a
four-way tie collapses to `"?"`.  On the code, the four-way part holds, but
a two-way tie yields `"Type II-A, Type II-B?"`: the tie fix-up
`Type.replace(",", " or")` on line 1306 discards its result (Python strings
are immutable), and the `"?"` is then appended to the comma-joined string,
which moreover still carries the second token's `"Type "` prefix.  This
theorem evaluates `Type_check` at the tied inputs, exhibiting the
divergence. -/
theorem Type_check_tie_divergence :
    Type_check ["Type II-A", "Type II-A", "Type II-A",
      "Type II-B", "Type II-B", "Type II-B", "Type II-C"] = "Type II-A, Type II-B?" ∧
    Type_check ["Type I-A", "Type I-A", "Type I-B", "Type I-B",
      "Type I-C", "Type I-C", "Type I-D", "Type I-D"] = "?" ∧
    ("Type II-A, Type II-B?" : String) ≠ "Type II-A, or II-B" :=
  ⟨by decide, by decide, by decide⟩

/-- C9 counterexample: on an empty filtered summary, `self_target_analysis`
prints the no-hits message and calls `sys.exit()` with no argument, which
terminates the process with exit status 0 — not the non-zero status the
claim asserts. -/
theorem self_target_exit_counterexample :
    self_target_exit ([] : List (List Int)) = RunOutcome.exited 0 no_hits_message ∧
    ¬ ∃ status, status ≠ 0 ∧
      self_target_exit ([] : List (List Int)) = RunOutcome.exited status no_hits_message := by
  refine ⟨rfl, ?_⟩
  rintro ⟨status, hstatus, h⟩
  rw [show self_target_exit ([] : List (List Int)) = RunOutcome.exited 0 no_hits_message
    from rfl] at h
  cases h
  exact hstatus rfl

/-- C9 amended: if no candidate survives filtering (the filtered summary is
empty), the condition is reported ("No self-targeting spacers found.
Exiting...") and the run terminates — with exit status zero, and only in
that case. -/
theorem self_target_exit_zero_status {α : Type} (summary : List α) :
    self_target_exit summary = RunOutcome.exited 0 no_hits_message ↔ summary = [] := by
  unfold self_target_exit
  rcases summary with _ | ⟨a, rest⟩
  · simp [List.isEmpty]
  · simp [List.isEmpty]

/-- C9 witness: the amended theorem applied to the empty summary. -/
theorem self_target_exit_zero_status_witness :
    self_target_exit ([] : List Nat) = RunOutcome.exited 0 no_hits_message :=
  (self_target_exit_zero_status ([] : List Nat)).mpr rfl

/-- A minimal array-finder report: one CRISPR header whose first data row
is already the final repeat (bare-newline spacer column), i.e. a locus with
zero spacer-bearing rows. -/
def header_only_report : List (List Char) :=
  ["CRISPR 1   Range: 1 - 100\n".toList,
   "POSITION\tREPEAT\tSPACER\n".toList,
   "--------\t--------\n".toList,
   "100\t\tGTTTCAATT\t\n".toList]

/-- C8 counterexample: the claim states a locus header followed by zero
valid repeat/spacer rows is discarded entirely, with no Array record in the
returned `spacer_data`.  On the code, `spacer_data[…].append([line])` runs
for every header during the header scan, before any rows are read, so the
header-only locus IS returned as a record holding just the header and an
empty spacer list. -/
theorem get_loci_header_only_emitted :
    get_loci_arrays header_only_report =
      some [{ header := "CRISPR 1   Range: 1 - 100\n".toList, spacers := [] }] := by
  decide

/-- Helper for C8: `loci_collect` produces exactly one record per header
position whenever it returns at all. -/
theorem loci_collect_length (lines : List (List Char)) :
    ∀ (positions : List Nat) (arrays : List PyArray),
      loci_collect lines positions = some arrays → arrays.length = positions.length := by
  intro positions
  induction positions with
  | nil => intro arrays h; simp [loci_collect] at h; simp [← h]
  | cons locus rest ih =>
    intro arrays h
    simp only [loci_collect, Option.bind_eq_bind, Option.bind_eq_some] at h
    obtain ⟨sps, _, others, hothers, hcons⟩ := h
    simp only [pure, Option.some.injEq] at hcons
    simp [← hcons, ih others hothers]

/-- C8 amended: `get_loci` emits exactly one Array record per `"CRISPR"`
header line — a header followed by zero valid repeat/spacer rows is not
discarded but appears as a record holding only the header, with an empty
spacer list. -/
theorem get_loci_one_record_per_header (lines : List (List Char))
    (arrays : List PyArray) (h : get_loci_arrays lines = some arrays) :
    arrays.length = (header_positions lines).length :=
  loci_collect_length lines (header_positions lines) arrays h

/-- C8 witness: the amended theorem applied to the header-only report. -/
theorem get_loci_one_record_per_header_witness :
    ([{ header := "CRISPR 1   Range: 1 - 100\n".toList, spacers := [] }] : List PyArray).length
      = (header_positions header_only_report).length :=
  get_loci_one_record_per_header header_only_report _ (by decide)

/-- Spacer sets used for the C6 statements: all-`'A'` sequences of the
stated lengths. -/
def seqs_of_lengths (lengths : List Nat) : List (List Char) :=
  lengths.map (fun l => List.replicate l 'A')

/-- C6 counterexample: with `percent_reject = 25` and spacer lengths
[20, 27, 28, 33], the exact average is 27 and the claimed lower bound
`average × (1 − 25/100)` is 20.25, so the length-20 spacer falls outside
the claimed bounds — yet `spacer_check` accepts the array, because the
source truncates the bound with `int()` to 20.  The claim's universal
rejection condition is therefore false on the code. -/
theorem spacer_check_truncation_counterexample :
    spacer_check (seqs_of_lengths [20, 27, 28, 33]) 25 = some true ∧
    (20 : ℚ) < ((20 + 27 + 28 + 33 : ℚ) / 4) * (1 - 25 / 100) := by
  constructor
  · decide
  · norm_num

/-- C6 amended: `spacer_check` returns `False` whenever some sequence
contains a character outside `"ATGCatgcnN"` (i.e. {A,C,G,T,N},
case-insensitive), or some spacer length falls outside the
integer-truncated binary64 bounds `int(average * (1 ± percent_reject/100))`
with `average = int(sum/len)`, all computed in double arithmetic as the
source does; on the claim's examples with `percent_reject = 25`, lengths
[20, 21, 19, 50] are rejected and lengths [20, 21, 19, 22] accepted.  The
final conjunct exercises a non-dyadic percentage: at `percent_reject = 55`
the double bound `int(60 * (1 - 0.55))` is 26 (not the exact-rational 27),
so lengths [26, 77, 77] are accepted. -/
theorem spacer_check_rejects :
    (∀ (sequences : List (List Char)) (percent_reject : Int),
      sequences ≠ [] →
      ((∃ seq ∈ sequences, ∃ c ∈ seq, c ∉ spacer_code) ∨
       (∃ seq ∈ sequences,
         (seq.length : Int) <
            spacer_lower_limit (average_spacer_length (sequences.map List.length)) percent_reject ∨
         (seq.length : Int) >
            spacer_upper_limit (average_spacer_length (sequences.map List.length)) percent_reject)) →
      spacer_check sequences percent_reject = some false) ∧
    spacer_check (seqs_of_lengths [20, 21, 19, 50]) 25 = some false ∧
    spacer_check (seqs_of_lengths [20, 21, 19, 22]) 25 = some true ∧
    spacer_lower_limit 60 55 = 26 ∧
    spacer_check (seqs_of_lengths [26, 77, 77]) 55 = some true := by
  refine ⟨?_, by decide, by decide, by decide, by decide⟩
  intro sequences percent_reject hne h
  unfold spacer_check
  split_ifs with h1 h2
  · rfl
  · exact absurd (List.length_eq_zero.mp h2) hne
  · rcases h with h | h
    · exfalso
      apply h1
      simp only [List.any_eq_true, decide_eq_true_eq]
      obtain ⟨seq, hseq, c, hc, hcode⟩ := h
      exact ⟨seq, hseq, c, hc, hcode⟩
    · obtain ⟨seq, hseq, hout⟩ := h
      simp only [Option.some.injEq, Bool.not_eq_false', List.any_eq_true, decide_eq_true_eq]
      exact ⟨seq.length, List.mem_map_of_mem List.length hseq, hout⟩

/-- C6 witness: the amended rejection condition applied to a concrete
out-of-bounds array (lengths [9, 1], `percent_reject = 25`:
average `int(5)`, bounds `[int(3.75), int(6.25)] = [3, 6]`, and 9 > 6). -/
theorem spacer_check_rejects_witness :
    spacer_check (seqs_of_lengths [9, 1]) 25 = some false :=
  spacer_check_rejects.1 (seqs_of_lengths [9, 1]) 25 (by decide) (Or.inr (by decide))

/-- C4 helper: `flip_base` is an involution on every character. -/
theorem flip_base_flip_base (c : Char) : flip_base (flip_base c) = c := by
  by_cases h1 : c = 'a'
  · subst h1; rfl
  by_cases h2 : c = 't'
  · subst h2; rfl
  by_cases h3 : c = 'c'
  · subst h3; rfl
  by_cases h4 : c = 'g'
  · subst h4; rfl
  have hfix : flip_base c = c := by simp [flip_base, h1, h2, h3, h4]
  rw [hfix, hfix]

/-- C4 helper: `complement_base` is an involution on {A,C,G,T,N}. -/
theorem complement_base_complement_base (c : Char) (hc : c ∈ valid_dna) :
    complement_base (complement_base c) = c := by
  simp only [valid_dna, List.mem_cons, List.not_mem_nil, or_false] at hc
  rcases hc with h | h | h | h | h <;> subst h <;> rfl

/-- C4: reverse-complement plus mutation-notation flip is an involution:
for every DNA sequence over {A,C,G,T,N}, reverse-complementing twice
returns the sequence exactly, and for every mutation-annotation string,
`flip_mismatch_notation` applied twice is the identity (lowercase
substitution letters are complement-swapped, `'.'` and every other
character preserved). -/
theorem reverse_complement_flip_involution (s m : List Char)
    (hs : ∀ c ∈ s, c ∈ valid_dna) :
    reverse_complement (reverse_complement s) = s ∧
    flip_mismatch_notation ( flip_mismatch_notation m) = m := by
  constructor
  · unfold reverse_complement
    rw [← List.map_reverse, List.reverse_reverse, List.map_map]
    calc s.map (complement_base ∘ complement_base)
        = s.map id := List.map_congr_left (fun c hc => complement_base_complement_base c (hs c hc))
      _ = s := List.map_id s
  · unfold flip_mismatch_notation
    rw [← List.map_reverse, List.reverse_reverse, List.map_map]
    calc m.map (flip_base ∘ flip_base)
        = m.map id := List.map_congr_left (fun c _ => flip_base_flip_base c)
      _ = m := List.map_id m

/-- C4 witness: the involution at a concrete sequence and mutation
annotation. -/
theorem reverse_complement_flip_involution_witness :
    reverse_complement (reverse_complement "ACGTNTGCA".toList) = "ACGTNTGCA".toList ∧
    flip_mismatch_notation ( flip_mismatch_notation "..a.G..t.".toList) = "..a.G..t.".toList :=
  reverse_complement_flip_involution "ACGTNTGCA".toList "..a.G..t.".toList (by decide)

/-- C5 helper: with non-negative bases-removed entries, the accumulated
offset is non-negative. -/
theorem Ns_adjust_loop_nonneg (corrected : List (Int × Int)) (position : Int)
    (hw : ∀ e ∈ corrected, 0 ≤ e.2) : 0 ≤ Ns_adjust_loop corrected position := by
  induction corrected with
  | nil => simp [Ns_adjust_loop]
  | cons e rest ih =>
    obtain ⟨p, w⟩ := e
    have hw0 : (0 : Int) ≤ w := hw (p, w) (List.mem_cons_self _ _)
    have hwrest : ∀ e ∈ rest, (0 : Int) ≤ e.2 := fun e he => hw e (List.mem_cons_of_mem _ he)
    simp only [Ns_adjust_loop]
    split_ifs
    · exact add_nonneg hw0 (ih hwrest)
    · exact le_refl 0
    · exact ih hwrest

/-- C5 helper: with non-negative bases-removed entries, the accumulated
offset is monotone in the query position. -/
theorem Ns_adjust_loop_mono (corrected : List (Int × Int)) (pos1 pos2 : Int)
    (hw : ∀ e ∈ corrected, 0 ≤ e.2) (hle : pos1 ≤ pos2) :
    Ns_adjust_loop corrected pos1 ≤ Ns_adjust_loop corrected pos2 := by
  induction corrected with
  | nil => simp [Ns_adjust_loop]
  | cons e rest ih =>
    obtain ⟨p, w⟩ := e
    have hwrest : ∀ e ∈ rest, (0 : Int) ≤ e.2 := fun e he => hw e (List.mem_cons_of_mem _ he)
    simp only [Ns_adjust_loop]
    by_cases h1 : pos1 ≥ p ∧ p ≥ 0
    · have h2 : pos2 ≥ p ∧ p ≥ 0 := ⟨le_trans h1.1 hle, h1.2⟩
      rw [if_pos h1, if_pos h2]
      exact add_le_add_left (ih hwrest) w
    · rw [if_neg h1]
      by_cases hp : p ≥ 0
      · rw [if_pos hp]
        have h0 := Ns_adjust_loop_nonneg ((p, w) :: rest) pos2 hw
        simp only [Ns_adjust_loop] at h0
        exact h0
      · rw [if_neg hp, if_neg (fun hc => hp (And.right hc)), if_neg hp]
        exact ih hwrest

/-- C5: N-run coordinate correction is monotonic: for a Masking Correction
Table sorted by position with non-negative bases-removed counts, and raw
positions `p1 ≤ p2` corrected against the same `contig_start`,
`correct_spacers_for_Ns` yields a corrected position for `p1` that is at
most the one for `p2` (as called on candidate positions, with
`align_locus_correction = False`). -/
theorem correct_spacers_for_Ns_mono (Ns_removed : List (Int × Int))
    (contig_start p1 p2 : Int)
    (_hsorted : Ns_removed.Pairwise (fun a b => a.1 ≤ b.1))
    (hw : ∀ e ∈ Ns_removed, 0 ≤ e.2) (hle : p1 ≤ p2) :
    correct_spacers_for_Ns p1 Ns_removed contig_start false ≤
      correct_spacers_for_Ns p2 Ns_removed contig_start false := by
  unfold correct_spacers_for_Ns
  simp only [Bool.false_eq_true, if_false]
  have hw' : ∀ e ∈ Ns_removed.map (fun Ns => (Ns.1 - contig_start, Ns.2)), (0 : Int) ≤ e.2 := by
    intro e he
    obtain ⟨x, hx, hxe⟩ := List.mem_map.mp he
    rw [← hxe]
    exact hw x hx
  exact add_le_add hle (Ns_adjust_loop_mono _ p1 p2 hw' hle)

/-- C5 witness: monotonicity at a concrete table and position pair. -/
theorem correct_spacers_for_Ns_mono_witness :
    correct_spacers_for_Ns 50 [(10, 200), (400, 300)] 0 false ≤
      correct_spacers_for_Ns 500 [(10, 200), (400, 300)] 0 false :=
  correct_spacers_for_Ns_mono [(10, 200), (400, 300)] 0 50 500
    (by decide) (by decide) (by decide)

/-- Length of a Python slice in terms of its normalised endpoints. -/
theorem pySlice_length {α : Type} (s : List α) (a b : Int) :
    (pySlice s a b).length = min (pyIndex s.length b) s.length - pyIndex s.length a := by
  simp [pySlice, List.length_drop, List.length_take]

/-- A non-negative in-range slice endpoint normalises to itself. -/
theorem pyIndex_coe_of_le (n i : Nat) (h : i ≤ n) : pyIndex n (i : Int) = i := by
  simp only [pyIndex]
  rw [if_neg (by omega)]
  simp [Int.toNat_ofNat]
  omega

/-- The zero slice endpoint normalises to zero. -/
theorem pyIndex_zero (n : Nat) : pyIndex n 0 = 0 := by
  simp [pyIndex]

/-- C10: after the migration scan, every spacer of the analyzed array is
replaced by its Python slice `[move_F_len : length − move_R_len − 1]`;
when the slice is in range the corrected spacer loses
`move_F_len + move_R_len + 1` characters — one trailing base beyond the
backward migrate length — and in particular with both migrate lengths zero
every non-empty spacer is shortened by exactly one (trailing) base; the
self-targeting spacer sequence receives the same slice whenever
`move_F_len + move_R_len > 0`. -/
theorem reflow_slice_semantics (spacers : List (List Char)) (mF mR : Nat) :
    corrected_spacers spacers mF mR =
      spacers.map (fun s => pySlice s (mF : Int) ((s.length : Int) - mR - 1)) ∧
    (∀ s ∈ spacers, mF + mR + 1 ≤ s.length →
      (pySlice s (mF : Int) ((s.length : Int) - mR - 1)).length = s.length - (mF + mR + 1)) ∧
    (mF = 0 → mR = 0 → ∀ s ∈ spacers, s ≠ [] →
      pySlice s (mF : Int) ((s.length : Int) - mR - 1) = s.dropLast ∧
      (pySlice s (mF : Int) ((s.length : Int) - mR - 1)).length + 1 = s.length) ∧
    (∀ spacer_seq : List Char, 0 < mF + mR →
      adjust_spacer_seq spacer_seq mF mR =
        pySlice spacer_seq (mF : Int) ((spacer_seq.length : Int) - mR - 1)) := by
  have hslice : ∀ (s : List Char), mF + mR + 1 ≤ s.length →
      (pySlice s (mF : Int) ((s.length : Int) - mR - 1)).length = s.length - (mF + mR + 1) := by
    intro s hle
    have hb : ((s.length : Int) - mR - 1) = ((s.length - mR - 1 : Nat) : Int) := by
      omega
    rw [hb, pySlice_length, pyIndex_coe_of_le _ _ (by omega), pyIndex_coe_of_le _ _ (by omega)]
    omega
  refine ⟨rfl, fun s _ h => hslice s h, ?_, ?_⟩
  · intro hF hR s _ hne
    subst hF; subst hR
    have h1 : 1 ≤ s.length := by
      cases s with
      | nil => exact absurd rfl hne
      | cons a l => simp
    have hb : ((s.length : Int) - ((0 : Nat) : Int) - 1) = ((s.length - 1 : Nat) : Int) := by
      omega
    constructor
    · rw [hb]
      simp only [pySlice, Nat.cast_zero,
        pyIndex_coe_of_le _ _ (by omega : s.length - 1 ≤ s.length), pyIndex_zero,
        List.drop_zero]
      exact (List.dropLast_eq_take s).symm
    · have := hslice s (by omega)
      omega
  · intro spacer_seq hpos
    unfold adjust_spacer_seq
    rw [if_pos (by omega)]

/-- C10 witness: the slice semantics at a concrete spacer list with zero
migrate lengths, and the spacer-sequence adjustment with positive ones. -/
theorem reflow_slice_semantics_witness :
    pySlice "ACGTACGT".toList ((0 : Nat) : Int) ((("ACGTACGT".toList.length : Int)) - (0 : Nat) - 1)
        = "ACGTACGT".toList.dropLast ∧
    adjust_spacer_seq "ACGTACGT".toList 1 2 =
        pySlice "ACGTACGT".toList ((1 : Nat) : Int) (("ACGTACGT".toList.length : Int) - (2 : Nat) - 1) :=
  ⟨((reflow_slice_semantics ["ACGTACGT".toList] 0 0).2.2.1 rfl rfl "ACGTACGT".toList
      (by decide) (by decide)).1,
   (reflow_slice_semantics ["ACGTACGT".toList] 1 2).2.2.2 "ACGTACGT".toList (by decide)⟩

/-- C7 helper: the row-collection loop emits one spacer per well-formed row
before the first row whose spacer column is the bare newline. -/
theorem collect_spacer_rows_append (good : List (List Char)) (term : List Char)
    (rest : List (List Char))
    (hgood : ∀ r ∈ good, (row_spacer_field r).isSome ∧
      row_spacer_field r ≠ some ['\n'] ∧ (row_spacer_pos r).isSome)
    (hterm : row_spacer_field term = some ['\n']) :
    ∃ sps, collect_spacer_rows (good ++ term :: rest) = some sps ∧
      sps.length = good.length := by
  induction good with
  | nil =>
    refine ⟨[], ?_, rfl⟩
    simp [collect_spacer_rows, hterm]
  | cons r good' ih =>
    obtain ⟨hsome, hneq, hpos⟩ := hgood r (List.mem_cons_self _ _)
    obtain ⟨sp, hsp⟩ := Option.isSome_iff_exists.mp hsome
    obtain ⟨p, hp⟩ := Option.isSome_iff_exists.mp hpos
    obtain ⟨l, hl, hlen⟩ := ih (fun x hx => hgood x (List.mem_cons_of_mem _ hx))
    have hspne : sp ≠ ['\n'] := fun hcon => hneq (hcon ▸ hsp)
    refine ⟨(sp, p) :: l, ?_, by simp [hlen]⟩
    simp [collect_spacer_rows, hsp, hp, hspne, List.cons_append, hl]

/-- C7: for a report with one CRISPR locus header (at line `h`) whose data
rows — starting three lines below the header — consist of `good.length`
spacer-bearing rows followed by a final repeat row with an empty spacer
field, `get_loci` emits exactly `good.length` spacers for that array.
With `N = good.length + 1` repeat rows this is `N − 1` spacers, never `N`:
row collection stops at the first row whose spacer column is empty. -/
theorem get_loci_stops_at_empty_spacer (lines : List (List Char)) (h : Nat)
    (good : List (List Char)) (term : List Char) (rest : List (List Char))
    (hheaders : header_positions lines = [h])
    (hrows : lines.drop (h + 3) = good ++ term :: rest)
    (hgood : ∀ r ∈ good, (row_spacer_field r).isSome ∧
      row_spacer_field r ≠ some ['\n'] ∧ (row_spacer_pos r).isSome)
    (hterm : row_spacer_field term = some ['\n']) :
    (get_loci_arrays lines).map (List.map (fun a => a.spacers.length)) = some [good.length] ∧
    (get_loci_arrays lines).map (List.map PyArray.header) = some [lines.getD h []] := by
  obtain ⟨sps, hc, hlen⟩ := collect_spacer_rows_append good term rest hgood hterm
  have : get_loci_arrays lines = some [{ header := lines.getD h [], spacers := sps }] := by
    unfold get_loci_arrays
    rw [hheaders]
    simp [loci_collect, hrows, hc]
  rw [this]
  simp [hlen]

/-- A minimal single-locus report for the C7 witness: two spacer-bearing
rows, then the final repeat row with an empty spacer column. -/
def trailing_empty_report : List (List Char) :=
  ["CRISPR 1   Range: 1 - 100\n".toList,
   "POSITION\tREPEAT\tSPACER\n".toList,
   "--------\t--------\n".toList,
   "1\t\tGTTTC\tAAAA\t[ 5, 4 ]\n".toList,
   "20\t\tGTTTC\tCCCC\t[ 5, 4 ]\n".toList,
   "40\t\tGTTTC\t\n".toList,
   "Repeats: 3\n".toList]

/-- C7 witness: the parser emits exactly 2 spacers for the 3-repeat-row
array of `trailing_empty_report`. -/
theorem get_loci_stops_at_empty_spacer_witness :
    (get_loci_arrays trailing_empty_report).map (List.map (fun a => a.spacers.length))
        = some [2] ∧
    (get_loci_arrays trailing_empty_report).map (List.map PyArray.header)
        = some [trailing_empty_report.getD 0 []] :=
  get_loci_stops_at_empty_spacer trailing_empty_report 0
    ["1\t\tGTTTC\tAAAA\t[ 5, 4 ]\n".toList, "20\t\tGTTTC\tCCCC\t[ 5, 4 ]\n".toList]
    "40\t\tGTTTC\t\n".toList ["Repeats: 3\n".toList]
    (by decide) (by decide) (by decide) (by decide)

/-- C2 helper: while the flank is long enough that no `IndexError` occurs
and fewer than 8 matches have accumulated, the letter loop rejects exactly
when the total match count from the current offset reaches 8. -/
theorem pam_scan_triggers (cs PAM : List Char) : ∀ (pos acc : Nat),
    cs.length + pos ≤ PAM.length → acc < 8 →
    ((pam_scan cs PAM pos acc).1 = true ↔ 8 ≤ acc + match_count cs (PAM.drop pos)) := by
  induction cs with
  | nil =>
    intro pos acc _ hacc
    have h0 : match_count [] (PAM.drop pos) = 0 := rfl
    rw [h0]
    simp only [pam_scan, Bool.false_eq_true, false_iff]
    omega
  | cons c rest ih =>
    intro pos acc hlen hacc
    have hpos : pos < PAM.length := by simp at hlen; omega
    have hg : PAM.get? pos = some (PAM.get ⟨pos, hpos⟩) := List.get?_eq_get hpos
    have hdrop : PAM.drop pos = PAM.get ⟨pos, hpos⟩ :: PAM.drop (pos + 1) :=
      List.drop_eq_getElem_cons hpos
    have hmc : match_count (c :: rest) (PAM.drop pos) =
        match_count rest (PAM.drop (pos + 1)) +
          (if c = PAM.get ⟨pos, hpos⟩ then 1 else 0) := by
      rw [hdrop]
      simp only [match_count, List.zip_cons_cons, List.countP_cons]
      by_cases hcp : c = PAM.get ⟨pos, hpos⟩ <;> simp [hcp]
    rw [hmc]
    simp only [pam_scan, hg, errors_allowed]
    by_cases hcp : c = PAM.get ⟨pos, hpos⟩
    · simp only [if_pos hcp]
      by_cases htrig : acc + 1 ≥ 9 - 1
      · rw [if_pos htrig]
        exact iff_of_true rfl (by omega)
      · rw [if_neg htrig]
        rw [ih (pos + 1) (acc + 1) (by simp at hlen ⊢; omega) (by omega)]
        omega
    · simp only [if_neg hcp]
      rw [if_neg (by omega : ¬ acc ≥ 9 - 1)]
      rw [ih (pos + 1) acc (by simp at hlen ⊢; omega) hacc]
      omega

/-- C2 helper: when the letter loop runs to completion without rejecting
and without `IndexError`, its final `pos` has advanced past every letter. -/
theorem pam_scan_final_pos (cs PAM : List Char) : ∀ (pos acc : Nat),
    cs.length + pos ≤ PAM.length → (pam_scan cs PAM pos acc).1 = false →
    (pam_scan cs PAM pos acc).2.1 = pos + cs.length := by
  induction cs with
  | nil => intro pos acc _ _; simp [pam_scan]
  | cons c rest ih =>
    intro pos acc hlen hfalse
    have hpos : pos < PAM.length := by simp at hlen; omega
    have hg : PAM.get? pos = some (PAM.get ⟨pos, hpos⟩) := List.get?_eq_get hpos
    simp only [pam_scan, hg, errors_allowed] at hfalse ⊢
    by_cases htrig : (if c = PAM.get ⟨pos, hpos⟩ then acc + 1 else acc) ≥ 9 - 1
    · rw [if_pos htrig] at hfalse; cases hfalse
    · rw [if_neg htrig] at hfalse ⊢
      rw [ih (pos + 1) _ (by simp at hlen ⊢; omega) hfalse]
      simp; omega

/-- C2: with a consensus repeat of length at least 9 and two 9-nt PAM
flanks, the PAM/repeat collision guard rejects the candidate spacer exactly
when the downstream flank matches at least 8 of the first 9 bases of the
consensus repeat or the upstream flank matches at least 8 of its last 9
bases.  A rejection returns a skip marker for this one spacer; the source
never writes the array-level `false_positive` entry on this path, so the
array is not marked. -/
theorem PAM_guard_iff (consensus down up : List Char)
    (hc : 9 ≤ consensus.length) (hd : down.length = 9) (hu : up.length = 9) :
    PAM_repeat_guard consensus down up = true ↔
      (8 ≤ match_count (first9 consensus) down ∨ 8 ≤ match_count (last9 consensus) up) := by
  have hf9 : (first9 consensus).length = 9 := by simp [first9]; omega
  have hl9 : (last9 consensus).length = 9 := by simp [last9]; omega
  have h1 := pam_scan_triggers (first9 consensus) down 0 0 (by omega) (by omega)
  have h2 := pam_scan_triggers (last9 consensus) up 0 0 (by omega) (by omega)
  rw [List.drop_zero] at h1 h2
  simp only [Nat.zero_add] at h1 h2
  by_cases ht : (pam_scan (first9 consensus) down 0 0).1 = true
  · have hguard : PAM_repeat_guard consensus down up = true := by
      simp only [PAM_repeat_guard, ht, if_true]
    rw [hguard]
    simp only [true_iff]
    exact Or.inl (h1.mp ht)
  · have htf : (pam_scan (first9 consensus) down 0 0).1 = false :=
      Bool.not_eq_true _ ▸ (by simpa using ht)
    have hposf : (pam_scan (first9 consensus) down 0 0).2.1 = 9 := by
      have := pam_scan_final_pos (first9 consensus) down 0 0 (by omega) htf
      simpa [hf9] using this
    have hguard : PAM_repeat_guard consensus down up =
        (pam_scan (last9 consensus) up 0 0).1 := by
      simp only [PAM_repeat_guard, htf, Bool.false_eq_true, if_false, hposf]
      norm_num
    rw [hguard, h2]
    constructor
    · exact fun h => Or.inr h
    · rintro (h | h)
      · exact absurd (h1.mpr h) (by simp [htf])
      · exact h

/-- C2 witness: with consensus repeat "ACGTACGTA", the 8/9-matching
downstream flank "ACGTACGTT" is rejected (via the theorem), and the
7/9-matching flank "ACGTTCGTT" is accepted. -/
theorem PAM_guard_iff_witness :
    PAM_repeat_guard "ACGTACGTA".toList "ACGTACGTT".toList "GGGGGGGGG".toList = true ∧
    PAM_repeat_guard "ACGTACGTA".toList "ACGTTCGTT".toList "GGGGGGGGG".toList = false :=
  ⟨(PAM_guard_iff "ACGTACGTA".toList "ACGTACGTT".toList "GGGGGGGGG".toList
      (by decide) (by decide) (by decide)).mpr (Or.inl (by decide)),
   by decide⟩

/-- A non-negative slice endpoint normalises to `min` with the length. -/
theorem pyIndex_coe (n a : Nat) : pyIndex n (a : Int) = min a n := by
  simp only [pyIndex]
  rw [if_neg (by omega)]
  simp [Int.toNat_ofNat]

/-- The first element of a non-empty slice `s[a:b]` (with `a ≥ 0`) is `s[a]`. -/
theorem pySlice_get_zero {α : Type} (s : List α) (a : Nat) (b : Int)
    (h : 1 ≤ (pySlice s (a : Int) b).length) :
    (pySlice s (a : Int) b).get? 0 = s.get? a := by
  have hlen := pySlice_length s (a : Int) b
  rw [pyIndex_coe] at hlen
  have hlt : min a s.length < min (pyIndex s.length b) s.length := by omega
  have ha : min a s.length = a := by omega
  have hab : a < pyIndex s.length b := by omega
  simp only [pySlice, pyIndex_coe, ha]
  rw [List.get?_drop, Nat.add_zero, List.get?_take hab]

/-- C3 helper: the forward pass over `range' a m` finds at most `m` dominant
columns, and when it stops short, the column where it stopped is not
dominant. -/
theorem scan_forward_range' (spacers : List (List Char)) :
    ∀ (m a : Nat),
      scan_forward spacers (List.range' a m) ≤ m ∧
      (scan_forward spacers (List.range' a m) < m →
        strong_homology spacers (a + scan_forward spacers (List.range' a m)) = false) := by
  intro m
  induction m with
  | zero => intro a; simp [List.range', scan_forward]
  | succ n ih =>
    intro a
    rw [List.range'_succ]
    by_cases hdom : strong_homology spacers a = true
    · simp only [scan_forward, hdom, if_true]
      obtain ⟨ihle, ihdom⟩ := ih (a + 1)
      constructor
      · omega
      · intro hlt
        have h2 : scan_forward spacers (List.range' (a + 1) n) < n := by omega
        have := ihdom h2
        rw [show a + (1 + scan_forward spacers (List.range' (a + 1) n)) =
          a + 1 + scan_forward spacers (List.range' (a + 1) n) by omega]
        exact this
    · have hdom' : strong_homology spacers a = false := by
        cases h : strong_homology spacers a
        · rfl
        · exact absurd h hdom
      simp only [scan_forward, hdom', Bool.false_eq_true, if_false]
      exact ⟨Nat.zero_le _, fun _ => by rw [Nat.add_zero]; exact hdom'⟩

/-- C3 helper: since the discarded `reversed(indexes)` makes the backward
pass walk the same index list, it finds nothing when the forward pass finds
nothing. -/
theorem scan_backward_of_scan_forward_zero (spacers : List (List Char))
    (l : List Nat) (h : scan_forward spacers l = 0) :
    scan_backward spacers l 0 = 0 := by
  cases l with
  | nil => rfl
  | cons i rest =>
    by_cases hdom : strong_homology spacers i = true
    · simp [scan_forward, hdom] at h
    · have hdom' : strong_homology spacers i = false := by
        cases hd : strong_homology spacers i
        · rfl
        · exact absurd hd hdom
      simp [scan_backward, hdom']

/-- C3 helper: from a positive accumulator the backward counter advances
by exactly the number of leading dominant columns. -/
theorem scan_backward_acc (spacers : List (List Char)) :
    ∀ (l : List Nat) (acc : Nat), 1 ≤ acc →
      scan_backward spacers l acc = acc + scan_forward spacers l := by
  intro l
  induction l with
  | nil => intro acc _; simp [scan_backward, scan_forward]
  | cons i rest ih =>
    intro acc hacc
    by_cases hdom : strong_homology spacers i = true
    · simp only [scan_backward, scan_forward, hdom, if_true]
      rw [if_neg (by omega : ¬ acc = 0), ih (acc + 1) (by omega)]
      omega
    · have hdom' : strong_homology spacers i = false := by
        cases hd : strong_homology spacers i
        · rfl
        · exact absurd hd hdom
      simp [scan_backward, scan_forward, hdom']

/-- C3 helper: the backward migrate length is 0 when the forward one is 0,
and `move_F_len + 1` otherwise (the counter jumps 0 -> 2 on its first
dominant column). -/
theorem scan_backward_eq (spacers : List (List Char)) (l : List Nat) :
    scan_backward spacers l 0 =
      if scan_forward spacers l = 0 then 0 else scan_forward spacers l + 1 := by
  cases l with
  | nil => simp [scan_backward, scan_forward]
  | cons i rest =>
    by_cases hdom : strong_homology spacers i = true
    · simp only [scan_backward, scan_forward, hdom, if_true, if_pos rfl]
      rw [scan_backward_acc spacers rest 2 (by omega)]
      rw [if_neg (by omega)]
      omega
    · have hdom' : strong_homology spacers i = false := by
        cases hd : strong_homology spacers i
        · rfl
        · exact absurd hd hdom
      simp [scan_backward, scan_forward, hdom']

/-- C3 helper: column 0 of the corrected spacers is column `move_F_len` of
the originals, so its per-base counts coincide. -/
theorem corrected_column_zero (spacers : List (List Char)) (mF mR : Nat) (Lnew : Nat)
    (hlen' : ∀ s' ∈ corrected_spacers spacers mF mR, s'.length = Lnew)
    (h1 : 1 ≤ Lnew) (base : Char) :
    pssm_count (corrected_spacers spacers mF mR) 0 base = pssm_count spacers mF base := by
  unfold pssm_count corrected_spacers
  rw [List.countP_map]
  apply List.countP_congr
  intro s hs
  have hmem : pySlice s (mF : Int) ((s.length : Int) - mR - 1) ∈
      corrected_spacers spacers mF mR := by
    unfold corrected_spacers
    exact List.mem_map_of_mem _ hs
  have hsl : (pySlice s (mF : Int) ((s.length : Int) - mR - 1)).length = Lnew :=
    hlen' _ hmem
  have hget := pySlice_get_zero s mF ((s.length : Int) - mR - 1) (by omega)
  simp only [Function.comp_apply, hget]

/-- C3: the register-correction migration scan is idempotent.  For an
array of spacers of equal length `L` over {A,C,G,T,N} with `L > 10` (the
regime in which every spacer enters the external alignment and the modelled
gap-free PSSM is faithful), re-running the scan — with its threshold
`ceil(overrep_percent × N)`, `overrep_percent = 0.75` for more than 4
spacers and `1.0` otherwise — on the already-corrected spacers (common
corrected length `Lnew`) produces forward and backward migrate lengths of
zero.  The scan reads only the spacer columns, so the corrected repeats
(`corrected_repeats`) do not influence it. -/
theorem register_correction_idempotent
    (spacers : List (List Char)) (L Lnew : Nat)
    (hne : spacers ≠ [])
    (hL : 10 < L)
    (hlen : ∀ s ∈ spacers, s.length = L)
    (_hvalid : ∀ s ∈ spacers, ∀ c ∈ s, c ∈ valid_dna)
    (hlen' : ∀ s' ∈ corrected_spacers spacers (move_F_len spacers L) (move_R_len spacers L),
      s'.length = Lnew) :
    move_F_len (corrected_spacers spacers (move_F_len spacers L) (move_R_len spacers L)) Lnew = 0 ∧
    move_R_len (corrected_spacers spacers (move_F_len spacers L) (move_R_len spacers L)) Lnew = 0 := by
  by_cases hL1 : Lnew ≤ 1
  · have hrange : List.range (Lnew - 1) = [] := by
      have h0 : Lnew - 1 = 0 := by omega
      rw [h0]
      rfl
    refine ⟨?_, ?_⟩
    · rw [move_F_len, hrange]
      rfl
    · rw [move_R_len, hrange]
      rfl
  · push_neg at hL1
    have hchar := scan_forward_range' spacers (L - 1) 0
    have hkdef : move_F_len spacers L = scan_forward spacers (List.range' 0 (L - 1)) := by
      rw [move_F_len, List.range_eq_range']
    have hkle : move_F_len spacers L ≤ L - 1 := by rw [hkdef]; exact hchar.1
    obtain ⟨s₀, hs₀⟩ := List.exists_mem_of_ne_nil spacers hne
    have hs₀L : s₀.length = L := hlen s₀ hs₀
    have hs₀mem : pySlice s₀ ((move_F_len spacers L : Nat) : Int)
        ((s₀.length : Int) - (move_R_len spacers L) - 1) ∈
        corrected_spacers spacers (move_F_len spacers L) (move_R_len spacers L) :=
      List.mem_map_of_mem _ hs₀
    have hLnew_eq : Lnew =
        min (pyIndex L ((L : Int) - (move_R_len spacers L) - 1)) L -
          min (move_F_len spacers L) L := by
      have hx := hlen' _ hs₀mem
      rw [pySlice_length, pyIndex_coe, hs₀L] at hx
      omega
    have hklt : move_F_len spacers L < L - 1 := by
      by_contra hcon
      have hkeq : move_F_len spacers L = L - 1 := by omega
      have hmReq : move_R_len spacers L = move_F_len spacers L + 1 := by
        rw [move_R_len, scan_backward_eq, ← move_F_len]
        rw [if_neg (by omega)]
      have hpy : pyIndex L ((L : Int) - (move_R_len spacers L) - 1) = L - 1 := by
        have hb : ((L : Int) - (move_R_len spacers L) - 1) = -1 := by
          rw [hmReq, hkeq]
          omega
        rw [hb]
        simp only [pyIndex, if_pos (by omega : (-1 : Int) < 0)]
        omega
      rw [hpy] at hLnew_eq
      omega
    have hnotdom : strong_homology spacers (move_F_len spacers L) = false := by
      have h2 := hchar.2 (by rw [← hkdef]; omega)
      rw [← hkdef, Nat.zero_add] at h2
      exact h2
    have hlen_eq : (corrected_spacers spacers (move_F_len spacers L) (move_R_len spacers L)).length
        = spacers.length := List.length_map _ _
    have htransfer : ∀ base : Char,
        pssm_count (corrected_spacers spacers (move_F_len spacers L) (move_R_len spacers L)) 0 base
          = pssm_count spacers (move_F_len spacers L) base :=
      fun base => corrected_column_zero spacers (move_F_len spacers L) (move_R_len spacers L)
        Lnew hlen' (by omega) base
    have hdom0 : strong_homology
        (corrected_spacers spacers (move_F_len spacers L) (move_R_len spacers L)) 0 = false := by
      unfold strong_homology at hnotdom ⊢
      rw [hlen_eq]
      simp only [htransfer]
      exact hnotdom
    have hF : move_F_len
        (corrected_spacers spacers (move_F_len spacers L) (move_R_len spacers L)) Lnew = 0 := by
      rw [move_F_len]
      have hsplit : List.range (Lnew - 1) = 0 :: List.range' 1 (Lnew - 2) := by
        rw [List.range_eq_range']
        have h2 : Lnew - 1 = (Lnew - 2) + 1 := by omega
        rw [h2, List.range'_succ]
      rw [hsplit]
      simp [scan_forward, hdom0]
    refine ⟨hF, ?_⟩
    rw [move_R_len]
    apply scan_backward_of_scan_forward_zero
    rw [← move_F_len]
    exact hF


/-- Spacer set for the C3 witness: three 12-mers differing at position 1,
so the first scan migrates (`move_F_len = 1`, `move_R_len = 2`). -/
def migration_witness_spacers : List (List Char) :=
  ["AAGTACGTACGT".toList, "ACGTACGTACGT".toList, "ACGTACGTACGT".toList]

/-- C3 witness: idempotence of the migration scan at a concrete array with
non-zero first-run migrate lengths. -/
theorem register_correction_idempotent_witness :
    move_F_len (corrected_spacers migration_witness_spacers
      (move_F_len migration_witness_spacers 12) (move_R_len migration_witness_spacers 12)) 8 = 0 ∧
    move_R_len (corrected_spacers migration_witness_spacers
      (move_F_len migration_witness_spacers 12) (move_R_len migration_witness_spacers 12)) 8 = 0 :=
  register_correction_idempotent migration_witness_spacers 12 8
    (by decide) (by decide) (by decide) (by decide) (by decide)

end STSS
